import Mathlib

/-!
Shallow embedding of `convert-nuget.js`: a tool that converts NuGet
`packages.config` manifests into `packages.lock.json` files by generating a
temporary project descriptor and driving the external `dotnet restore`
resolver through a compatibility-narrowing retry loop.

Pure string manipulation (version normalization, the NU1202 diagnostic
parser) is embedded character-by-character on `List Char`; the stateful
narrowing loop is embedded as a fuel-indexed recursive function over an
abstract resolver `Nat → RestoreResult` giving the outcome of each
successive `dotnet restore` invocation; filesystem and process effects
(directory listings, restore outcomes, lock-file copies) are inputs of the
model.  All definitions are computable, so concrete runs evaluate by
`decide` / `rfl`.
-/

namespace ConvertNuget

/-! ## Character and string utilities

JavaScript string primitives used by the source (`split`, `join`,
`includes`, `toLowerCase`, `startsWith`, `endsWith`) are embedded as
structural recursions on `List Char`.  Identifiers and diagnostics handled
by the tool are ASCII, and the embedding of `toLowerCase` and of the regex
class `\s` is ASCII-faithful.
-/

/-- JavaScript regex `\s` restricted to ASCII: space, tab, LF, VT, FF, CR. -/
def jsWhitespace (c : Char) : Bool :=
  c == ' ' || c == '\t' || c == '\n' || c == '\x0b' || c == '\x0c' || c == '\r'

/-- `p` is a prefix of `s` (character-exact). -/
def isPrefixChars : List Char → List Char → Bool
  | [], _ => true
  | _ :: _, [] => false
  | p :: ps, c :: cs => p == c && isPrefixChars ps cs

/-- JavaScript `String.prototype.includes`: `needle` occurs in `s`. -/
def containsSub (needle : List Char) : List Char → Bool
  | [] => isPrefixChars needle []
  | c :: cs => isPrefixChars needle (c :: cs) || containsSub needle cs

/-- `errorOutput.includes('NU1202')` from the narrowing loop. -/
def containsNU1202 (s : String) : Bool :=
  containsSub "NU1202".data s.data

/-- JavaScript `toLowerCase`, ASCII range (package ids are ASCII). -/
def lowerStr (s : String) : String :=
  (s.data.map Char.toLower).asString

/-- JavaScript `v.split('.')` (`""` splits to `[""]`, as in JS). -/
def splitOnDot : List Char → List (List Char)
  | [] => [[]]
  | '.' :: rest => [] :: splitOnDot rest
  | c :: rest =>
    match splitOnDot rest with
    | h :: t => (c :: h) :: t
    | [] => [[c]]

/-- JavaScript `parts.join('.')`. -/
def joinDots : List (List Char) → List Char
  | [] => []
  | [x] => x
  | x :: y :: t => x ++ '.' :: joinDots (y :: t)

/-- The indexed filter of `normalizeVersion` in `src/convert-nuget.js:272`:
`parts.filter((p, i, arr) => i < arr.length - 1 || p !== '0')` — keep every
segment except the last, and the last only when it differs from `"0"`. -/
def keepSegments (parts : List (List Char)) : List (List Char) :=
  ((parts.enum.filter fun pi => decide (pi.1 < parts.length - 1) || pi.2 != ['0']).map
    fun pi => pi.2)

/-- `normalizeVersion` from `src/convert-nuget.js:272`:
`v => v.split('.').filter((p, i, arr) => i < arr.length - 1 || p !== '0').join('.')`. -/
def normalizeVersion (v : String) : String :=
  (joinDots (keepSegments (splitOnDot v.data))).asString

/-- Helper for `normalizeVersionLoop`: the `while (parts.length > 1 &&
parts[parts.length - 1] === '0') parts.pop()` loop, acting on the reversed
segment list. -/
def dropZerosRev : List (List Char) → List (List Char)
  | ('0' :: []) :: b :: bs => dropZerosRev (b :: bs)
  | l => l

/-- `normalizeVersion` as implemented by the sibling variant of the script
(`src/unnamed/part_002`): pop trailing `"0"` segments one at a time while
more than one segment remains.  This matches the comment above
`src/convert-nuget.js:272` ("remove trailing .0 segments") and the spec's
normalization rule; it is kept for comparison with `normalizeVersion`. -/
def normalizeVersionLoop (v : String) : String :=
  (joinDots ((dropZerosRev (splitOnDot v.data).reverse).reverse)).asString

/-! ## Data model

`PackageRef` from the manifest: `{ id, version }` strings. -/

/-- A package reference `{ id, version }` as parsed from `packages.config`
or extracted from resolver diagnostics. -/
structure Pkg where
  id : String
  version : String
deriving DecidableEq

/-! ## Diagnostic parser

`extractIncompatiblePackages` (`src/convert-nuget.js:134-147`) scans the
captured resolver output with the JavaScript regex
`/Package\s+([^\s]+)\s+([0-9.]+)\s+is\s+not\s+compatible/gi` in an
`exec` loop, collecting `(id, version)` pairs of successive non-overlapping
leftmost matches.  The embedding replays the regex's backtracking, which at
any start position is forced: the greedy `([^\s]+)` group must be a maximal
non-whitespace run followed by whitespace, `([0-9.]+)` a maximal run of
digits and dots followed by whitespace, and each `\s+` a maximal whitespace
run, because shrinking any of them makes the next item fail on a character
of the class just left. -/

/-- Case-insensitive literal match (regex `i` flag, ASCII): consume `lit`
from the front of `s`, returning the rest. -/
def matchLitCI : List Char → List Char → Option (List Char)
  | [], s => some s
  | _ :: _, [] => none
  | l :: ls, c :: cs => if l.toLower == c.toLower then matchLitCI ls cs else none

/-- Split off the maximal prefix of characters satisfying `p`. -/
def takeRun (p : Char → Bool) : List Char → List Char × List Char
  | [] => ([], [])
  | c :: cs =>
    if p c then
      let (run, rest) := takeRun p cs
      (c :: run, rest)
    else ([], c :: cs)

/-- Regex `\s+`: require at least one whitespace character, consume the
maximal whitespace run. -/
def wsRun1 : List Char → Option (List Char)
  | [] => none
  | c :: cs => if jsWhitespace c then some ((takeRun jsWhitespace cs).2) else none

/-- Regex class `[0-9.]`. -/
def verChar (c : Char) : Bool :=
  ('0' ≤ c && c ≤ '9') || c == '.'

/-- One attempt of the NU1202 regex at the current position: on success,
the captured `(id, version)` and the remaining input after `compatible`. -/
def matchAt (s : List Char) : Option (Pkg × List Char) :=
  (matchLitCI "Package".data s).bind fun r1 =>
  (wsRun1 r1).bind fun r2 =>
  let idRun := takeRun (fun c => !jsWhitespace c) r2
  if idRun.1.isEmpty then none else
  (wsRun1 idRun.2).bind fun r3 =>
  let verRun := takeRun verChar r3
  if verRun.1.isEmpty then none else
  (wsRun1 verRun.2).bind fun r4 =>
  (matchLitCI "is".data r4).bind fun r5 =>
  (wsRun1 r5).bind fun r6 =>
  (matchLitCI "not".data r6).bind fun r7 =>
  (wsRun1 r7).bind fun r8 =>
  (matchLitCI "compatible".data r8).map fun r9 =>
  ({ id := idRun.1.asString, version := verRun.1.asString }, r9)

/-- The `exec` loop: successive leftmost non-overlapping matches.  `fuel`
only bounds the recursion; every step consumes at least one character, so
`fuel = s.length` (as passed by `extractIncompatiblePackages`) is never
exhausted before the input is. -/
def scanMatches : Nat → List Char → List Pkg
  | 0, _ => []
  | _ + 1, [] => []
  | fuel + 1, c :: cs =>
    match matchAt (c :: cs) with
    | some (pkg, rest) => pkg :: scanMatches fuel rest
    | none => scanMatches fuel cs

/-- `extractIncompatiblePackages` from `src/convert-nuget.js:134-147`. -/
def extractIncompatiblePackages (errorOutput : String) : List Pkg :=
  scanMatches errorOutput.data.length errorOutput.data

/-! ## Compatibility-narrowing loop

`processPackagesConfig` (`src/convert-nuget.js:264-320`) drives repeated
`dotnet restore` attempts.  Each iteration writes a descriptor for the
current `compatiblePackages` and invokes the resolver; the external resolver
is modelled as `resolver : Nat → RestoreResult` giving the outcome of the
i-th invocation (the generated descriptor text itself only influences the
black-box resolver, so it does not appear in the model).  The loop state
(`compatiblePackages`, `skippedPackages`, `retryCount`, `lastError`) is
passed explicitly; `fuel = maxRetries - retryCount` indexes the recursion.
`invocations` counts resolver invocations performed so far and `sizes`
accumulates (most recent first) the candidate-set size at each invocation;
the result reports `sizes` in chronological order. -/

/-- Outcome of one `dotnet restore` invocation: success, or failure with
captured stdout and stderr. -/
inductive RestoreResult where
  | ok : RestoreResult
  | fail (sout serr : String) : RestoreResult
deriving DecidableEq

/-- The matching predicate of the narrowing filter
(`src/convert-nuget.js:306-309`): ids compare case-insensitively, versions
after `normalizeVersion`. -/
def matchesPkg (inc pkg : Pkg) : Bool :=
  lowerStr inc.id == lowerStr pkg.id &&
    normalizeVersion inc.version == normalizeVersion pkg.version

/-- `maxRetries` from `src/convert-nuget.js:266`. -/
def maxRetries : Nat := 20

/-- State of the narrowing loop when it exits, together with the
bookkeeping fields `invocations` and `sizes` described above.  `lastError`
holds the `errorOutput` (stdout ++ stderr) of the most recent failed
attempt, which the source prints when `restoreSuccess` is false. -/
structure LoopResult where
  restoreSuccess : Bool
  compatible : List Pkg
  skipped : List Pkg
  lastError : Option String
  invocations : Nat
  sizes : List Nat
deriving DecidableEq

/-- The `while (retryCount < maxRetries && compatiblePackages.length > 0)`
loop of `src/convert-nuget.js:274-320`, with `fuel = maxRetries -
retryCount`.  On resolver success with a non-empty skip list and
`failOnSkipped` set, the source throws; the inner `catch` records the
error (whose `errorOutput` is empty, containing no `NU1202`) and breaks
with `restoreSuccess` already `true`, so both arms return the same success
state apart from `lastError`.  On failure the source narrows only when the
output contains `NU1202`, the extracted list is non-empty and the filter
actually removed something; in every other case it breaks, and the
`skippedPackages.push(...incompatible)` of a narrowing step appends the
entries reported by the diagnostic (not the elements removed). -/
def narrowLoop (resolver : Nat → RestoreResult) (failOnSkipped : Bool) :
    Nat → List Pkg → List Pkg → Option String → Nat → List Nat → LoopResult
  | 0, compat, skipped, lastErr, inv, sizes =>
    { restoreSuccess := false, compatible := compat, skipped := skipped,
      lastError := lastErr, invocations := inv, sizes := sizes.reverse }
  | fuel + 1, compat, skipped, lastErr, inv, sizes =>
    if compat.isEmpty then
      { restoreSuccess := false, compatible := compat, skipped := skipped,
        lastError := lastErr, invocations := inv, sizes := sizes.reverse }
    else
      match resolver inv with
      | RestoreResult.ok =>
        { restoreSuccess := true, compatible := compat, skipped := skipped,
          lastError := if failOnSkipped && !skipped.isEmpty then some "" else lastErr,
          invocations := inv + 1, sizes := (compat.length :: sizes).reverse }
      | RestoreResult.fail sout serr =>
        let errorOutput := sout ++ serr
        if containsNU1202 errorOutput then
          let incompatible := extractIncompatiblePackages errorOutput
          if !incompatible.isEmpty then
            let newCompat :=
              compat.filter fun pkg => !(incompatible.any fun inc => matchesPkg inc pkg)
            if newCompat.length < compat.length then
              narrowLoop resolver failOnSkipped fuel newCompat
                (skipped ++ incompatible) (some errorOutput) (inv + 1)
                (compat.length :: sizes)
            else
              { restoreSuccess := false, compatible := compat, skipped := skipped,
                lastError := some errorOutput, invocations := inv + 1,
                sizes := (compat.length :: sizes).reverse }
          else
            { restoreSuccess := false, compatible := compat, skipped := skipped,
              lastError := some errorOutput, invocations := inv + 1,
              sizes := (compat.length :: sizes).reverse }
        else
          { restoreSuccess := false, compatible := compat, skipped := skipped,
            lastError := some errorOutput, invocations := inv + 1,
            sizes := (compat.length :: sizes).reverse }

/-! ## Manifest parsing

`parsePackagesConfig` (`src/convert-nuget.js:84-126`) reads the XML and
walks `result.packages.package` in document order.  The XML layer is
modelled as `ManifestInput`: either malformed (the XML parser throws) or a
list of package nodes with optional `id`, `version`, `targetFramework`
attributes.  JavaScript truthiness makes an empty attribute string falsy,
so a node contributes only when both `id` and `version` are present and
non-empty. -/

/-- One `<package .../>` element: the attributes the source reads. -/
structure PkgNode where
  id : Option String
  version : Option String
  targetFramework : Option String
deriving DecidableEq

/-- The parsed `packages.config`, abstracting the XML text: `malformed`
when the XML parser throws, otherwise the package nodes in document
order. -/
inductive ManifestInput where
  | malformed (msg : String)
  | wellFormed (nodes : List PkgNode)

/-- JavaScript truthiness of an optional attribute string: present and
non-empty. -/
def truthy : Option String → Bool
  | some s => s != ""
  | none => false

/-- The package list built by `parsePackagesConfig`: every node with truthy
`id` and `version`, in document order, projected to `{ id, version }`; no
deduplication of any kind is performed. -/
def parsePackages : List PkgNode → List Pkg
  | [] => []
  | n :: rest =>
    match n.id, n.version with
    | some i, some v =>
      if i != "" && v != "" then { id := i, version := v } :: parsePackages rest
      else parsePackages rest
    | _, _ => parsePackages rest

/-- The `netframework40 -> net40` rewrite of `src/convert-nuget.js:113-116`:
when the tag starts with `netframework`, drop that prefix (JavaScript
`replace` with a string replaces the first occurrence, which here is the
prefix), remove every dot, and prepend `net`. -/
def rewriteTfm (tf : String) : String :=
  if isPrefixChars "netframework".data tf.data then
    ("net".data ++ (tf.data.drop 12).filter fun c => c != '.').asString
  else tf

/-- The `targetFramework` extraction of `src/convert-nuget.js:109-117`: the
first node with truthy `id`, `version` and `targetFramework` wins, with the
legacy rewrite applied. -/
def extractTfm : List PkgNode → Option String
  | [] => none
  | n :: rest =>
    match n.id, n.version with
    | some i, some v =>
      if i != "" && v != "" then
        match n.targetFramework with
        | some tf => if tf != "" then some (rewriteTfm tf) else extractTfm rest
        | none => extractTfm rest
      else extractTfm rest
    | _, _ => extractTfm rest

/-- `parsePackagesConfig`: an error for malformed XML (the source wraps the
parser's message), otherwise the package list and optional target
framework. -/
def parsePackagesConfig : ManifestInput → Except String (List Pkg × Option String)
  | ManifestInput.malformed msg =>
    Except.error ("Failed to parse packages.config: " ++ msg)
  | ManifestInput.wellFormed nodes =>
    Except.ok (parsePackages nodes, extractTfm nodes)

/-! ## Existing-descriptor discovery

`findCsprojFile` (`src/convert-nuget.js:170-186`) lists the manifest's
directory and keeps file entries whose name ends in `.csproj`. -/

/-- One directory entry beside the manifest. -/
structure DirEntry where
  name : String
  isFile : Bool
deriving DecidableEq

/-- `name.endsWith('.csproj')`. -/
def endsWithCsproj (name : String) : Bool :=
  isPrefixChars ".csproj".data.reverse name.data.reverse

/-- The `.csproj` file names among the directory's entries, in listing
order. -/
def csprojNames (entries : List DirEntry) : List String :=
  (entries.filter fun e => e.isFile && endsWithCsproj e.name).map DirEntry.name

/-- `findCsprojFile`: none when no `.csproj` exists, the single name when
exactly one does, and the `Multiple .csproj files` error otherwise. -/
def findCsprojFile (entries : List DirEntry) : Except String (Option String) :=
  match csprojNames entries with
  | [] => Except.ok none
  | [c] => Except.ok (some c)
  | _ => Except.error "Multiple .csproj files found"

/-! ## Per-manifest processing

`processPackagesConfig` (`src/convert-nuget.js:188-345`).  Filesystem and
process effects are inputs: the directory listing, the parsed manifest, the
outcome of `dotnet restore` against a pre-existing `.csproj`, whether a
lock file exists at the project root or under `obj/` for that path, the
narrowing loop's resolver, and whether the final lock-file copy out of the
temporary workdir succeeds.  The returned pair is the source's
`{ success, skippedPackages }` plus the number of `dotnet restore`
invocations performed. -/

/-- The source's per-manifest return value `{ success, skippedPackages }`. -/
structure ProcessResult where
  success : Bool
  skippedPackages : List Pkg
deriving DecidableEq

/-- The effect environment of one manifest. -/
structure ManifestEnv where
  entries : List DirEntry
  manifest : ManifestInput
  existingRestoreOk : Bool
  rootLockExists : Bool
  objLockExists : Bool
  resolver : Nat → RestoreResult
  finalCopyOk : Bool

/-- `processPackagesConfig`: the existing-descriptor path
(`src/convert-nuget.js:209-243`) restores against the found `.csproj` and
copies whichever lock file exists, never touching the manifest; the
fallback path (`:245-336`) parses the manifest, fails straight away on an
empty package list, and otherwise runs the narrowing loop.  Every `catch`
that the source converts into `{ success: false, skippedPackages: [] }`
(multiple descriptors, parse error, failed final copy) is the corresponding
branch here; a failed loop returns its accumulated skip list
(`:322-327`). -/
def processPackagesConfig (env : ManifestEnv) (defaultTfm : String)
    (failOnSkipped : Bool) : ProcessResult × Nat :=
  match findCsprojFile env.entries with
  | Except.error _ => ({ success := false, skippedPackages := [] }, 0)
  | Except.ok (some _) =>
    if env.existingRestoreOk then
      if env.rootLockExists then ({ success := true, skippedPackages := [] }, 1)
      else if env.objLockExists then ({ success := true, skippedPackages := [] }, 1)
      else ({ success := false, skippedPackages := [] }, 1)
    else ({ success := false, skippedPackages := [] }, 1)
  | Except.ok none =>
    match parsePackagesConfig env.manifest with
    | Except.error _ => ({ success := false, skippedPackages := [] }, 0)
    | Except.ok (packages, targetFramework) =>
      if packages.isEmpty then ({ success := false, skippedPackages := [] }, 0)
      else
        let _tfm := targetFramework.getD defaultTfm
        let r := narrowLoop env.resolver failOnSkipped maxRetries packages [] none 0 []
        if r.restoreSuccess then
          if env.finalCopyOk then ({ success := true, skippedPackages := r.skipped },
            r.invocations)
          else ({ success := false, skippedPackages := [] }, r.invocations)
        else ({ success := false, skippedPackages := r.skipped }, r.invocations)

/-! ## Orchestrator

`main` (`src/convert-nuget.js:347-449`) processes every discovered manifest
in order, counts successes and failures, accumulates the skipped packages,
and exits with 1 when any manifest failed, else 2 when `failOnSkipped` is
set and anything was skipped, else 0. -/

/-- The per-manifest results of the `for` loop of
`src/convert-nuget.js:413-423`, in discovery order. -/
def mainResults (envs : List ManifestEnv) (defaultTfm : String)
    (failOnSkipped : Bool) : List ProcessResult :=
  envs.map fun env => (processPackagesConfig env defaultTfm failOnSkipped).1

/-- `failCount` after the loop. -/
def failCount (results : List ProcessResult) : Nat :=
  (results.filter fun r => !r.success).length

/-- `totalSkippedPackages`: each result's skip list appended in order. -/
def totalSkipped : List ProcessResult → List Pkg
  | [] => []
  | r :: rest => r.skippedPackages ++ totalSkipped rest

/-- The process exit status decided at `src/convert-nuget.js:442-448`:
1 when any manifest failed, else 2 under `--fail-on-skipped` with a
non-empty skip union, else 0 (normal termination). -/
def mainExitCode (results : List ProcessResult) (failOnSkipped : Bool) : Nat :=
  if 0 < failCount results then 1
  else if failOnSkipped && !(totalSkipped results).isEmpty then 2
  else 0

/-! ## Invariants of the narrowing loop -/

/-- Narrowing only removes candidates: the surviving set is an
order-preserving subsequence of the set the loop started from. -/
theorem narrowLoop_compatible_sublist (resolver : Nat → RestoreResult) (fos : Bool) :
    ∀ fuel compat skipped lastErr inv sizes,
      (narrowLoop resolver fos fuel compat skipped lastErr inv sizes).compatible.Sublist
        compat := by
  intro fuel
  induction fuel with
  | zero => intro compat skipped lastErr inv sizes; exact List.Sublist.refl _
  | succ fuel ih =>
    intro compat skipped lastErr inv sizes
    rw [narrowLoop]
    split
    · exact List.Sublist.refl _
    · split
      · exact List.Sublist.refl _
      · dsimp only
        split
        · split
          · split
            · exact (ih _ _ _ _ _).trans (List.filter_sublist _)
            · exact List.Sublist.refl _
          · exact List.Sublist.refl _
        · exact List.Sublist.refl _

/-- The skip list only grows: the loop's result extends the accumulated
skip list it was given. -/
theorem narrowLoop_skipped_append (resolver : Nat → RestoreResult) (fos : Bool) :
    ∀ fuel compat skipped lastErr inv sizes,
      ∃ t, (narrowLoop resolver fos fuel compat skipped lastErr inv sizes).skipped =
        skipped ++ t := by
  intro fuel
  induction fuel with
  | zero => intro compat skipped lastErr inv sizes; exact ⟨[], by simp [narrowLoop]⟩
  | succ fuel ih =>
    intro compat skipped lastErr inv sizes
    rw [narrowLoop]
    split
    · exact ⟨[], by simp⟩
    · split
      · exact ⟨[], by simp⟩
      · dsimp only
        split
        · split
          · split
            · obtain ⟨t, ht⟩ := ih _ (skipped ++ extractIncompatiblePackages _) _ _ _
              exact ⟨extractIncompatiblePackages _ ++ t, by rw [ht, List.append_assoc]⟩
            · exact ⟨[], by simp⟩
          · exact ⟨[], by simp⟩
        · exact ⟨[], by simp⟩

/-- Entries once in the skip list stay in it. -/
theorem narrowLoop_mem_skipped (resolver : Nat → RestoreResult) (fos : Bool) :
    ∀ fuel compat skipped lastErr inv sizes s, s ∈ skipped →
      s ∈ (narrowLoop resolver fos fuel compat skipped lastErr inv sizes).skipped := by
  intro fuel
  induction fuel with
  | zero => intro compat skipped lastErr inv sizes s hs; exact hs
  | succ fuel ih =>
    intro compat skipped lastErr inv sizes s hs
    rw [narrowLoop]
    split
    · exact hs
    · split
      · exact hs
      · dsimp only
        split
        · split
          · split
            · exact ih _ _ _ _ _ s (List.mem_append_left _ hs)
            · exact hs
          · exact hs
        · exact hs

/-- Every package of the initial candidate set either survives narrowing or
matches (case-insensitive id, normalized version) an entry of the final
skip list. -/
theorem narrowLoop_cover (resolver : Nat → RestoreResult) (fos : Bool) :
    ∀ fuel compat skipped lastErr inv sizes p, p ∈ compat →
      p ∈ (narrowLoop resolver fos fuel compat skipped lastErr inv sizes).compatible ∨
      ∃ s ∈ (narrowLoop resolver fos fuel compat skipped lastErr inv sizes).skipped,
        matchesPkg s p = true := by
  intro fuel
  induction fuel with
  | zero => intro compat skipped lastErr inv sizes p hp; exact Or.inl hp
  | succ fuel ih =>
    intro compat skipped lastErr inv sizes p hp
    rw [narrowLoop]
    split
    · exact Or.inl hp
    · split
      · exact Or.inl hp
      · rename_i sout serr heq
        dsimp only
        split
        · split
          · split
            · by_cases hmem :
                p ∈ compat.filter fun pkg =>
                  !(extractIncompatiblePackages (sout ++ serr)).any fun inc =>
                    matchesPkg inc pkg
              · exact ih _ _ _ _ _ p hmem
              · simp only [List.mem_filter, not_and, Bool.not_eq_true',
                  Bool.not_eq_false] at hmem
                obtain ⟨s, hs, hm⟩ := List.any_eq_true.mp (hmem hp)
                exact Or.inr ⟨s, narrowLoop_mem_skipped resolver fos fuel _ _ _ _ _ s
                  (List.mem_append_right _ hs), hm⟩
            · exact Or.inl hp
          · exact Or.inl hp
        · exact Or.inl hp

/-- No surviving candidate matches any entry of the final skip list,
provided none matched an entry of the skip list the loop started with
(at the top-level call that list is empty). -/
theorem narrowLoop_disjoint (resolver : Nat → RestoreResult) (fos : Bool) :
    ∀ fuel compat skipped lastErr inv sizes,
      (∀ p ∈ compat, ∀ s ∈ skipped, matchesPkg s p = false) →
      ∀ p ∈ (narrowLoop resolver fos fuel compat skipped lastErr inv sizes).compatible,
        ∀ s ∈ (narrowLoop resolver fos fuel compat skipped lastErr inv sizes).skipped,
          matchesPkg s p = false := by
  intro fuel
  induction fuel with
  | zero => intro compat skipped lastErr inv sizes h; exact h
  | succ fuel ih =>
    intro compat skipped lastErr inv sizes h
    rw [narrowLoop]
    split
    · exact h
    · split
      · exact h
      · rename_i sout serr heq
        dsimp only
        split
        · split
          · split
            · refine ih _ _ _ _ _ ?_
              intro p hp s hs
              rw [List.mem_filter] at hp
              rcases List.mem_append.mp hs with hs' | hs'
              · exact h p hp.1 s hs'
              · have hall := hp.2
                simp only [Bool.not_eq_true'] at hall
                cases hmt : matchesPkg s p
                · rfl
                · exact absurd
                    (show ((extractIncompatiblePackages (sout ++ serr)).any fun inc =>
                        matchesPkg inc p) = true from
                      List.any_eq_true.mpr ⟨s, hs', hmt⟩)
                    (by simp [hall])
            · exact h
          · exact h
        · exact h

/-- The loop performs at most `fuel` further resolver invocations: every
iteration invokes the resolver once, and only an iteration that narrowed the
set continues. -/
theorem narrowLoop_invocations_le (resolver : Nat → RestoreResult) (fos : Bool) :
    ∀ fuel compat skipped lastErr inv sizes,
      (narrowLoop resolver fos fuel compat skipped lastErr inv sizes).invocations ≤
        inv + fuel := by
  intro fuel
  induction fuel with
  | zero => intro compat skipped lastErr inv sizes; simp [narrowLoop]
  | succ fuel ih =>
    intro compat skipped lastErr inv sizes
    rw [narrowLoop]
    split
    · exact Nat.le_add_right _ _
    · split
      · show inv + 1 ≤ inv + (fuel + 1); omega
      · dsimp only
        split
        · split
          · split
            · exact (ih _ _ _ _ _).trans (by omega)
            · show inv + 1 ≤ inv + (fuel + 1); omega
          · show inv + 1 ≤ inv + (fuel + 1); omega
        · show inv + 1 ≤ inv + (fuel + 1); omega

/-- The candidate-set sizes recorded at successive resolver invocations are
strictly decreasing: an iteration only continues after removing at least
one candidate.  `sizes` accumulates most-recent-first, so the invariant is
an ascending chain on the accumulator together with a bound on its head. -/
theorem narrowLoop_sizes_chain (resolver : Nat → RestoreResult) (fos : Bool) :
    ∀ fuel compat skipped lastErr inv sizes,
      List.Chain' (· < ·) sizes →
      (∀ m ∈ sizes.head?, compat.length < m) →
      List.Chain' (fun a b => b < a)
        (narrowLoop resolver fos fuel compat skipped lastErr inv sizes).sizes := by
  intro fuel
  induction fuel with
  | zero =>
    intro compat skipped lastErr inv sizes h1 h2
    exact List.chain'_reverse.mpr h1
  | succ fuel ih =>
    intro compat skipped lastErr inv sizes h1 h2
    rw [narrowLoop]
    split
    · exact List.chain'_reverse.mpr h1
    · have hpush : List.Chain' (· < ·) (compat.length :: sizes) :=
        List.chain'_cons'.mpr ⟨h2, h1⟩
      split
      · exact List.chain'_reverse.mpr hpush
      · dsimp only
        split
        · split
          · split
            · rename_i hlt
              refine ih _ _ _ _ _ hpush ?_
              intro m hm
              simp only [List.head?_cons, Option.mem_def, Option.some.injEq] at hm
              omega
            · exact List.chain'_reverse.mpr hpush
          · exact List.chain'_reverse.mpr hpush
        · exact List.chain'_reverse.mpr hpush

/-! ## Claims -/

/-- C1.  The claim states that version normalization strips trailing `.0`
segments one at a time from the right until a non-zero segment is met or
one segment remains, with `normalize("1.0.0.0") = "1"`.  The filter at
`src/convert-nuget.js:272` keeps every segment except the last and drops
the last only when it equals `"0"`, so it removes at most one trailing
zero segment: `normalizeVersion "1.0.0.0" = "1.0.0"`, not `"1"`.  The
comment above it ("remove trailing .0 segments") and the sibling variant's
`while`-loop implementation (`normalizeVersionLoop`, which does return
`"1"`) show the claimed behaviour is the intent and the filter a slip. -/
theorem c1_normalizeVersion_strips_only_last_zero :
    normalizeVersion "2.3.0" = "2.3" ∧ normalizeVersion "1.0.1" = "1.0.1" ∧
    normalizeVersion "1.0.0.0" = "1.0.0" ∧ normalizeVersion "1.0.0.0" ≠ "1" ∧
    normalizeVersionLoop "1.0.0.0" = "1" := by decide

/-- C2.  The claim states `normalize` is idempotent for every version
string.  Because `normalizeVersion` removes only the last segment (and only
when it is `"0"`), a second application can strip further:
`normalizeVersion "1.0.0" = "1.0"` but `normalizeVersion "1.0" = "1"`.
The intended strip-all-trailing-zeros normalization
(`normalizeVersionLoop`) is idempotent at this input. -/
theorem c2_normalizeVersion_not_idempotent :
    normalizeVersion "1.0.0" = "1.0" ∧
    normalizeVersion (normalizeVersion "1.0.0") = "1" ∧
    normalizeVersion (normalizeVersion "1.0.0") ≠ normalizeVersion "1.0.0" ∧
    normalizeVersionLoop (normalizeVersionLoop "1.0.0") = normalizeVersionLoop "1.0.0" := by
  decide

/-- C3, counterexample.  The claim asserts `result.skipped ⊆ original` for
every candidate set and diagnostic sequence.  The loop pushes the entries
reported by the diagnostic (`skippedPackages.push(...incompatible)` at
`src/convert-nuget.js:312`), not the elements it removed: a diagnostic
naming `B 2.0` (present) and `C 3.0` (absent) removes only `B` yet records
both, and the loop then converges successfully with
`C@3.0 ∈ skipped` although `C@3.0` is not in the original set, so the
skip list is not a subset of the original and the union of the skip list
and the final set exceeds the original. -/
theorem c3_skipped_not_subset_counterexample :
    (narrowLoop
        (fun n => if n == 0 then
          RestoreResult.fail
            "NU1202 Package B 2.0 is not compatible Package C 3.0 is not compatible" ""
        else RestoreResult.ok)
        false maxRetries
        [{ id := "A", version := "1.0" }, { id := "B", version := "2.0" }]
        [] none 0 []).restoreSuccess = true ∧
    { id := "C", version := "3.0" } ∈
      (narrowLoop
        (fun n => if n == 0 then
          RestoreResult.fail
            "NU1202 Package B 2.0 is not compatible Package C 3.0 is not compatible" ""
        else RestoreResult.ok)
        false maxRetries
        [{ id := "A", version := "1.0" }, { id := "B", version := "2.0" }]
        [] none 0 []).skipped ∧
    ({ id := "C", version := "3.0" } : Pkg) ∉
      [({ id := "A", version := "1.0" } : Pkg), { id := "B", version := "2.0" }] := by
  decide

/-- C3, amended.  What the loop does guarantee: the final candidate set is
an order-preserving subsequence of the original; every original package
either survives or matches (case-insensitive id, normalized version) some
entry of the accumulated skip list; and no surviving package matches any
skip-list entry.  The skip list itself consists of the diagnostic-reported
entries, which need not lie in the original set. -/
theorem c3_narrowing_partition_amended (resolver : Nat → RestoreResult)
    (failOnSkipped : Bool) (packages : List Pkg) :
    (narrowLoop resolver failOnSkipped maxRetries packages [] none 0 []).compatible.Sublist
      packages ∧
    (∀ p ∈ packages,
      p ∈ (narrowLoop resolver failOnSkipped maxRetries packages [] none 0 []).compatible ∨
      ∃ s ∈ (narrowLoop resolver failOnSkipped maxRetries packages [] none 0 []).skipped,
        matchesPkg s p = true) ∧
    ∀ p ∈ (narrowLoop resolver failOnSkipped maxRetries packages [] none 0 []).compatible,
      ∀ s ∈ (narrowLoop resolver failOnSkipped maxRetries packages [] none 0 []).skipped,
        matchesPkg s p = false :=
  ⟨narrowLoop_compatible_sublist resolver failOnSkipped maxRetries packages [] none 0 [],
   fun p hp => narrowLoop_cover resolver failOnSkipped maxRetries packages [] none 0 [] p hp,
   narrowLoop_disjoint resolver failOnSkipped maxRetries packages [] none 0 []
     (fun _ _ s hs => absurd hs (List.not_mem_nil s))⟩

/-- C9, counterexample.  The claim asserts the candidate set is unique by
package id with the first occurrence winning.  `parsePackagesConfig`
(`src/convert-nuget.js:97-120`) pushes every node that has an id and a
version without any deduplication, so a manifest listing the same id twice
yields two candidate entries with that id. -/
theorem c9_duplicate_ids_counterexample :
    parsePackages
        [{ id := some "A", version := some "1.0", targetFramework := none },
         { id := some "A", version := some "2.0", targetFramework := none }] =
      [{ id := "A", version := "1.0" }, { id := "A", version := "2.0" }] ∧
    ¬ List.Nodup (List.map Pkg.id (parsePackages
        [{ id := some "A", version := some "1.0", targetFramework := none },
         { id := some "A", version := some "2.0", targetFramework := none }])) := by
  decide

/-- C9, amended.  The candidate set keeps every manifest entry with a
non-empty id and version in document order, duplicates included (building
it is append-homomorphic, which a first-occurrence-wins deduplication
would violate), and narrowing only removes elements: the surviving
candidates are an order-preserving subsequence of the original. -/
theorem c9_order_and_removal_amended (resolver : Nat → RestoreResult)
    (failOnSkipped : Bool) (packages : List Pkg) (ns1 ns2 : List PkgNode) :
    parsePackages (ns1 ++ ns2) = parsePackages ns1 ++ parsePackages ns2 ∧
    (narrowLoop resolver failOnSkipped maxRetries packages [] none 0 []).compatible.Sublist
      packages := by
  constructor
  · induction ns1 with
    | nil => rfl
    | cons n rest ih =>
      rcases n with ⟨oid, over, otf⟩
      cases oid with
      | none => simpa [parsePackages] using ih
      | some i =>
        cases over with
        | none => simpa [parsePackages] using ih
        | some v =>
          by_cases hiv : (i != "" && v != "") = true
          · simp [parsePackages, hiv, ih]
          · simp [parsePackages, hiv, ih]
  · exact narrowLoop_compatible_sublist resolver failOnSkipped maxRetries packages [] none 0 []

/-- C4.  A manifest with no `.csproj` beside it whose parsed package list
is empty fails straight away (`src/convert-nuget.js:248-251`) with an empty
skip list and zero `dotnet restore` invocations. -/
theorem c4_empty_manifest_no_restore (env : ManifestEnv) (defaultTfm : String)
    (failOnSkipped : Bool) (nodes : List PkgNode)
    (hfind : findCsprojFile env.entries = Except.ok none)
    (hman : env.manifest = ManifestInput.wellFormed nodes)
    (hempty : parsePackages nodes = []) :
    processPackagesConfig env defaultTfm failOnSkipped =
      ({ success := false, skippedPackages := [] }, 0) := by
  unfold processPackagesConfig
  rw [hfind]
  dsimp only
  rw [hman]
  dsimp only [parsePackagesConfig]
  rw [hempty]
  rfl

/-- C4, witness: a concrete empty manifest with no sibling descriptor. -/
theorem c4_empty_manifest_no_restore_witness :
    processPackagesConfig
      { entries := [], manifest := ManifestInput.wellFormed [],
        existingRestoreOk := true, rootLockExists := true, objLockExists := true,
        resolver := fun _ => RestoreResult.ok, finalCopyOk := true }
      "net472" false = ({ success := false, skippedPackages := [] }, 0) :=
  c4_empty_manifest_no_restore
    { entries := [], manifest := ManifestInput.wellFormed [],
      existingRestoreOk := true, rootLockExists := true, objLockExists := true,
      resolver := fun _ => RestoreResult.ok, finalCopyOk := true }
    "net472" false [] rfl rfl rfl

/-- Helper for C5: a member with a non-empty skip list makes the
accumulated union non-empty. -/
theorem totalSkipped_ne_nil : ∀ (rs : List ProcessResult) (r : ProcessResult),
    r ∈ rs → r.skippedPackages ≠ [] → totalSkipped rs ≠ [] := by
  intro rs
  induction rs with
  | nil => intro r hr; cases hr
  | cons x xs ih =>
    intro r hr hne hcontra
    rcases List.append_eq_nil.mp hcontra with ⟨h1, h2⟩
    rcases List.mem_cons.mp hr with h | h
    · exact hne (by rw [h]; exact h1)
    · exact ih r h hne h2

/-- C5.  With `--fail-on-skipped` set, when every manifest's result is a
success and at least one carries a non-empty skip list (exactly what a
narrowing run that skipped a package produces, since the inner `catch`
swallows the `Packages were skipped` throw with `restoreSuccess` already
true), `main` exits with status 2: `failCount` is zero, so the exit-1
branch is not taken, and the strict-flag branch fires. -/
theorem c5_fail_on_skipped_exit2 (envs : List ManifestEnv) (defaultTfm : String)
    (hall : ∀ r ∈ mainResults envs defaultTfm true, r.success = true)
    (hskip : ∃ r ∈ mainResults envs defaultTfm true, r.skippedPackages ≠ []) :
    mainExitCode (mainResults envs defaultTfm true) true = 2 := by
  have hfail : failCount (mainResults envs defaultTfm true) = 0 := by
    unfold failCount
    rw [List.length_eq_zero, List.filter_eq_nil_iff]
    intro r hr
    simp [hall r hr]
  obtain ⟨r, hr, hne⟩ := hskip
  have hto : (totalSkipped (mainResults envs defaultTfm true)).isEmpty = false := by
    cases hl : totalSkipped (mainResults envs defaultTfm true) with
    | nil => exact absurd hl (totalSkipped_ne_nil _ r hr hne)
    | cons a t => rfl
  unfold mainExitCode
  rw [hfail]
  simp [hto]

/-- C5, witness: one manifest whose narrowing skips `B@2.0` and then
succeeds; the run exits 2. -/
theorem c5_fail_on_skipped_exit2_witness :
    mainExitCode
      (mainResults
        [{ entries := [],
           manifest := ManifestInput.wellFormed
             [{ id := some "A", version := some "1.0", targetFramework := none },
              { id := some "B", version := some "2.0", targetFramework := none }],
           existingRestoreOk := false, rootLockExists := false, objLockExists := false,
           resolver := fun n => if n == 0 then
             RestoreResult.fail "NU1202 Package B 2.0 is not compatible" ""
           else RestoreResult.ok,
           finalCopyOk := true }]
        "net472" true)
      true = 2 :=
  c5_fail_on_skipped_exit2
    [{ entries := [],
       manifest := ManifestInput.wellFormed
         [{ id := some "A", version := some "1.0", targetFramework := none },
          { id := some "B", version := some "2.0", targetFramework := none }],
       existingRestoreOk := false, rootLockExists := false, objLockExists := false,
       resolver := fun n => if n == 0 then
         RestoreResult.fail "NU1202 Package B 2.0 is not compatible" ""
       else RestoreResult.ok,
       finalCopyOk := true }]
    "net472" (by decide) (by decide)

/-- C6.  A resolver failure whose output lacks `NU1202`, or whose extracted
incompatibility list is empty, or whose filter removes nothing, makes the
running loop stop at once: the result is a failure carrying the raw
`errorOutput`, the candidate and skip lists are unchanged, and exactly one
further resolver invocation (the failed one) was performed. -/
theorem c6_unrecognized_failure_stops (resolver : Nat → RestoreResult)
    (failOnSkipped : Bool) (fuel : Nat) (compat skipped : List Pkg)
    (lastErr : Option String) (inv : Nat) (sizes : List Nat) (sout serr : String)
    (hne : compat ≠ [])
    (hres : resolver inv = RestoreResult.fail sout serr)
    (hstuck : containsNU1202 (sout ++ serr) = false ∨
      extractIncompatiblePackages (sout ++ serr) = [] ∨
      ¬((compat.filter fun pkg =>
          !(extractIncompatiblePackages (sout ++ serr)).any fun inc =>
            matchesPkg inc pkg).length < compat.length)) :
    narrowLoop resolver failOnSkipped (fuel + 1) compat skipped lastErr inv sizes =
      { restoreSuccess := false, compatible := compat, skipped := skipped,
        lastError := some (sout ++ serr), invocations := inv + 1,
        sizes := (compat.length :: sizes).reverse } := by
  have hempf : compat.isEmpty = false := by
    cases compat
    · exact absurd rfl hne
    · rfl
  rw [narrowLoop, if_neg (by simp [hempf]), hres]
  dsimp only
  split_ifs with hC hne2 hlt
  · exfalso
    rcases hstuck with h | h | h
    · simp [h] at hC
    · simp [h] at hne2
    · exact h hlt
  · rfl
  · rfl
  · rfl

/-- C6, witness: a failure with output `boom` (no `NU1202`) on the first
attempt stops the loop with that diagnostic after one invocation. -/
theorem c6_unrecognized_failure_stops_witness :
    narrowLoop (fun _ => RestoreResult.fail "boom" "") false (19 + 1)
      [{ id := "A", version := "1.0" }] [] none 0 [] =
      { restoreSuccess := false, compatible := [{ id := "A", version := "1.0" }],
        skipped := [], lastError := some ("boom" ++ ""), invocations := 0 + 1,
        sizes := (([({ id := "A", version := "1.0" } : Pkg)].length) :: []).reverse } :=
  c6_unrecognized_failure_stops (fun _ => RestoreResult.fail "boom" "") false 19
    [{ id := "A", version := "1.0" }] [] none 0 [] "boom" ""
    (by decide) rfl (Or.inl (by decide))

/-- C7.  The narrowing loop (a total function of its fuel) performs at most
`maxRetries = 20` resolver invocations per manifest at the top-level call,
and the candidate-set sizes at successive invocations strictly decrease:
an iteration only re-enters the loop after removing at least one
candidate. -/
theorem c7_retry_budget_and_decrease (resolver : Nat → RestoreResult)
    (failOnSkipped : Bool) (packages : List Pkg) :
    maxRetries = 20 ∧
    (narrowLoop resolver failOnSkipped maxRetries packages [] none 0 []).invocations ≤
      maxRetries ∧
    List.Chain' (fun a b => b < a)
      (narrowLoop resolver failOnSkipped maxRetries packages [] none 0 []).sizes :=
  ⟨rfl,
   by simpa using
     narrowLoop_invocations_le resolver failOnSkipped maxRetries packages [] none 0 [],
   narrowLoop_sizes_chain resolver failOnSkipped maxRetries packages [] none 0 []
     List.chain'_nil (by simp)⟩

/-- C8.  A manifest whose directory holds more than one `.csproj` makes
`findCsprojFile` throw; `processPackagesConfig` catches the error and
returns a failure with an empty skip list, so the aggregate results are
those of the other manifests with one failure inserted in place, and the
failure count is positive.  The surrounding manifests are processed
exactly as they would be on their own. -/
theorem c8_ambiguous_descriptor_counted_failed (pre post : List ManifestEnv)
    (env : ManifestEnv) (defaultTfm : String) (failOnSkipped : Bool)
    (h : 1 < (csprojNames env.entries).length) :
    mainResults (pre ++ env :: post) defaultTfm failOnSkipped =
      mainResults pre defaultTfm failOnSkipped ++
        ({ success := false, skippedPackages := [] } : ProcessResult) ::
          mainResults post defaultTfm failOnSkipped ∧
    0 < failCount (mainResults (pre ++ env :: post) defaultTfm failOnSkipped) := by
  have hproc : processPackagesConfig env defaultTfm failOnSkipped =
      ({ success := false, skippedPackages := [] }, 0) := by
    unfold processPackagesConfig findCsprojFile
    cases hcs : csprojNames env.entries with
    | nil => rw [hcs] at h; simp at h
    | cons a t =>
      cases t with
      | nil => rw [hcs] at h; simp at h
      | cons b t2 => rfl
  have heq : mainResults (pre ++ env :: post) defaultTfm failOnSkipped =
      mainResults pre defaultTfm failOnSkipped ++
        ({ success := false, skippedPackages := [] } : ProcessResult) ::
          mainResults post defaultTfm failOnSkipped := by
    unfold mainResults
    rw [List.map_append, List.map_cons, hproc]
  refine ⟨heq, ?_⟩
  have hmem : ({ success := false, skippedPackages := [] } : ProcessResult) ∈
      mainResults (pre ++ env :: post) defaultTfm failOnSkipped := by
    rw [heq]
    exact List.mem_append_right _ (List.mem_cons_self _ _)
  have hmemf : ({ success := false, skippedPackages := [] } : ProcessResult) ∈
      (mainResults (pre ++ env :: post) defaultTfm failOnSkipped).filter
        fun r => !r.success :=
    List.mem_filter.mpr ⟨hmem, rfl⟩
  exact List.length_pos.mpr (List.ne_nil_of_mem hmemf)

/-- C8, witness: a lone manifest with two `.csproj` siblings is counted
failed. -/
theorem c8_ambiguous_descriptor_counted_failed_witness :
    mainResults
        ([] ++
          { entries := [{ name := "A.csproj", isFile := true },
                        { name := "B.csproj", isFile := true }],
            manifest := ManifestInput.wellFormed [],
            existingRestoreOk := true, rootLockExists := true, objLockExists := true,
            resolver := fun _ => RestoreResult.ok, finalCopyOk := true } :: [])
        "net472" false =
      mainResults [] "net472" false ++
        ({ success := false, skippedPackages := [] } : ProcessResult) ::
          mainResults [] "net472" false ∧
    0 < failCount
      (mainResults
        ([] ++
          { entries := [{ name := "A.csproj", isFile := true },
                        { name := "B.csproj", isFile := true }],
            manifest := ManifestInput.wellFormed [],
            existingRestoreOk := true, rootLockExists := true, objLockExists := true,
            resolver := fun _ => RestoreResult.ok, finalCopyOk := true } :: [])
        "net472" false) :=
  c8_ambiguous_descriptor_counted_failed [] []
    { entries := [{ name := "A.csproj", isFile := true },
                  { name := "B.csproj", isFile := true }],
      manifest := ManifestInput.wellFormed [],
      existingRestoreOk := true, rootLockExists := true, objLockExists := true,
      resolver := fun _ => RestoreResult.ok, finalCopyOk := true }
    "net472" false (by decide)

/-- C10.  When exactly one `.csproj` sits beside the manifest,
`processPackagesConfig` takes the existing-descriptor path
(`src/convert-nuget.js:209-243`) and returns before the manifest is read:
its result (including the invocation count) is the same for any two
manifest contents, malformed ones included. -/
theorem c10_existing_csproj_ignores_manifest (env : ManifestEnv)
    (m1 m2 : ManifestInput) (defaultTfm : String) (failOnSkipped : Bool)
    (c : String) (hfind : findCsprojFile env.entries = Except.ok (some c)) :
    processPackagesConfig { env with manifest := m1 } defaultTfm failOnSkipped =
      processPackagesConfig { env with manifest := m2 } defaultTfm failOnSkipped := by
  unfold processPackagesConfig
  dsimp only
  rw [hfind]

/-- C10, witness: beside a single `App.csproj`, a malformed manifest and an
empty well-formed one process identically. -/
theorem c10_existing_csproj_ignores_manifest_witness :
    processPackagesConfig
        { entries := [{ name := "App.csproj", isFile := true }],
          manifest := ManifestInput.malformed "bad XML",
          existingRestoreOk := true, rootLockExists := false, objLockExists := true,
          resolver := fun _ => RestoreResult.ok, finalCopyOk := true }
        "net472" false =
      processPackagesConfig
        { entries := [{ name := "App.csproj", isFile := true }],
          manifest := ManifestInput.wellFormed [],
          existingRestoreOk := true, rootLockExists := false, objLockExists := true,
          resolver := fun _ => RestoreResult.ok, finalCopyOk := true }
        "net472" false :=
  c10_existing_csproj_ignores_manifest
    { entries := [{ name := "App.csproj", isFile := true }],
      manifest := ManifestInput.malformed "bad XML",
      existingRestoreOk := true, rootLockExists := false, objLockExists := true,
      resolver := fun _ => RestoreResult.ok, finalCopyOk := true }
    (ManifestInput.malformed "bad XML") (ManifestInput.wellFormed [])
    "net472" false "App.csproj" rfl

end ConvertNuget

